import Mathlib

/-!
# lsp-cli: the root command (`cmd/root.go`)

A shallow embedding of the root command of `lsp-cli`:

* `Args`  (root.go 33-47): the positional-argument validator, which also stores the
  method name and the decoded params in the package-level variables;
* `Run`   (root.go 48-142): pipe set-up, the `initialize` retry loop, the `initialized`
  notification and the single user call, as a small-step machine over program points;
* `newWriter` (root.go 70-71): the `io.MultiWriter(calls, stdin)` every outbound byte
  goes through.

The connection (`rpc.Call`, `rpc.Notify`) lives in `pkg/jsonrpc2`; here it is the
environment: a peer behaviour gives the result of the i-th operation issued on the
connection.  `json.Unmarshal`, `os.Getwd` and the OS pipe are library code and are
environment as well.
-/

namespace LspCli

/-! ## Data model -/

/-- Modelled from the spec: the error taxonomy of section 7, the errors a `Call` or
`Notify` of `pkg/jsonrpc2` can return. -/
inductive RpcError where
  | framing
  | encoding
  | remote (code : Int) (message : String)
  | connectionClosed
  | cancellation
  deriving DecidableEq, Repr

/-- A decoded JSON value, the Go `interface{}` that `encoding/json` produces.  Numbers are
kept by their text. -/
inductive Value where
  | null
  | bool (b : Bool)
  | number (text : String)
  | string (s : String)
  | array (items : List Value)
  | object (members : List (String × Value))

/-- The Go type `map[string]interface{}`; `none` is the nil map. -/
abbrev JsonMap := Option (List (String × Value))

/-- The fields of `protocol.InitializeParams` that root.go 96-109 sets. -/
structure InitializeParams where
  RootURI : String
  HierarchicalDocumentSymbolSupport : Bool
  ExtendedClientCapilities : List (String × Bool)
  deriving DecidableEq, Repr

/-- The params argument of a `Call` or `Notify`; the three Go types passed in root.go:
`*protocol.InitializeParams`, `*protocol.InitializedParams`, `map[string]interface{}`. -/
inductive Params where
  | initializeParams (p : InitializeParams)
  | initializedParams
  | user (jsonData : JsonMap)

/-- One operation issued on the connection. -/
inductive Op where
  | call (method : String) (params : Params)
  | notify (method : String) (params : Params)

/-- An operation together with the error it returned (`none`: it returned nil). -/
structure Event where
  op : Op
  err : Option RpcError

/-- A peer behaviour: the result of the i-th operation (0-based) issued on the
connection. -/
abbrev Peer := Nat → Option RpcError

/-- The package-level variables of root.go (lines 17-18 and 145-147). -/
structure Globals where
  method : String
  jsonData : JsonMap
  printMessageSTDOUT : Bool
  languageServerCMD : List String
  codeLocation : String

/-- The process state before any flag or argument is read. -/
def initialGlobals : Globals :=
  { method := "", jsonData := none, printMessageSTDOUT := false,
    languageServerCMD := ["gopls"], codeLocation := "" }

/-- What the operating system answers during one `Run`: the errors of `StdinPipe` and
`StdoutPipe` and the pair returned by `os.Getwd`. -/
structure Env where
  stdinPipeErr : Option String
  stdoutPipeErr : Option String
  getwd : String × Option String

/-! ## `Args` (root.go 33-47) -/

/-- The signature of `json.Unmarshal(data, &jsonData)`: from the text and the current map
to the map afterwards and the returned error. -/
abbrev Unmarshal := String → JsonMap → JsonMap × Option String

/-- `rootCmd.Args`: returns the error (`none` for nil) and the package-level variables
afterwards. -/
def Args (unmarshal : Unmarshal) (args : List String) (g : Globals) :
    Option String × Globals :=
  if args.length ≠ 2 then
    (some "must pass in method name, and json struct", g)
  else
    let g1 := { g with method := args.getD 0 "" }
    let jsonString := args.getD 1 ""
    let r := unmarshal jsonString g1.jsonData
    let g2 := { g1 with jsonData := r.1 }
    match r.2 with
    | some err => (some err, g2)
    | none => (none, g2)

/-! ## `Run` (root.go 48-142) -/

/-- Program points of `Run`. -/
inductive PC where
  /-- Lines 50-109: spawn, pipes, code location, params. -/
  | start
  /-- Line 114: the head of the `for` loop, about to call `initialize`. -/
  | initLoop
  /-- Line 120: about to notify `initialized`. -/
  | notifyInitialized
  /-- Line 126: about to call the user's method. -/
  | callMethod
  /-- `Run` has returned. -/
  | returned
  /-- `Run` has panicked (`languageServerCMD[0]` on an empty slice). -/
  | panicked
  deriving DecidableEq, Repr

/-- The state of one execution of `Run`. -/
structure State where
  pc : PC
  /-- The package-level `codeLocation`, which line 91 may overwrite. -/
  codeLocation : String
  /-- The local `params` of line 96. -/
  params : InitializeParams
  /-- The operations issued so far, oldest first, with their results. -/
  trace : List Event

/-- Lines 96-109: the literal built from the code location;
`fmt.Sprintf("file://%v", codeLocation)` is plain concatenation for a string. -/
def mkInitializeParams (codeLocation : String) : InitializeParams :=
  { RootURI := "file://" ++ codeLocation,
    HierarchicalDocumentSymbolSupport := true,
    ExtendedClientCapilities := [("classFileContentsSupport", true)] }

/-- The state `Run` starts in. -/
def State.init (g : Globals) : State :=
  { pc := PC.start, codeLocation := g.codeLocation,
    params := { RootURI := "", HierarchicalDocumentSymbolSupport := false,
                ExtendedClientCapilities := [] },
    trace := [] }

/-- Record operation `op`, answered by the peer according to its position. -/
def State.issue (peer : Peer) (s : State) (op : Op) : Option RpcError × State :=
  let r := peer s.trace.length
  (r, { s with trace := s.trace ++ [⟨op, r⟩] })

/-- Line 114: `rpc.Call(ctx, "initialize", params, &result)`. -/
def initializeCall (p : InitializeParams) : Op :=
  Op.call "initialize" (Params.initializeParams p)

/-- Line 120: `rpc.Notify(ctx, "initialized", &protocol.InitializedParams{})`. -/
def initializedNotify : Op :=
  Op.notify "initialized" Params.initializedParams

/-- Line 126: `rpc.Call(ctx, method, jsonData, &res)`. -/
def methodCall (g : Globals) : Op :=
  Op.call g.method (Params.user g.jsonData)

/-- One step of `Run`, from one program point to the next. -/
def step (env : Env) (peer : Peer) (g : Globals) (s : State) : State :=
  match s.pc with
  | PC.start =>
    match g.languageServerCMD with
    | [] => { s with pc := PC.panicked }
    | _ :: _ =>
      match env.stdinPipeErr with
      | some _ => { s with pc := PC.returned }
      | none =>
        match env.stdoutPipeErr with
        | some _ => { s with pc := PC.returned }
        | none =>
          let codeLocation := if s.codeLocation = "" then env.getwd.1 else s.codeLocation
          { s with pc := PC.initLoop, codeLocation := codeLocation,
                   params := mkInitializeParams codeLocation }
  | PC.initLoop =>
    match s.issue peer (initializeCall s.params) with
    | (some _, s1) => { s1 with pc := PC.initLoop }
    | (none, s1) => { s1 with pc := PC.notifyInitialized }
  | PC.notifyInitialized =>
    match s.issue peer initializedNotify with
    | (some _, s1) => { s1 with pc := PC.returned }
    | (none, s1) => { s1 with pc := PC.callMethod }
  | PC.callMethod =>
    match s.issue peer (methodCall g) with
    | (_, s1) => { s1 with pc := PC.returned }
  | PC.returned => s
  | PC.panicked => s

/-- `rootCmd.Run`, executed for `fuel` steps. -/
def Run (env : Env) (peer : Peer) (g : Globals) : Nat → State
  | 0 => State.init g
  | fuel + 1 => step env peer g (Run env peer g fuel)

/-! ## The writer (root.go 70-71) -/

/-- A byte. -/
abbrev Byte := Fin 256

/-- The two sinks behind `newWriter`: the buffer `calls`, the bytes the pipe to the
peer's stdin has accepted, and whether that pipe is broken. -/
structure Sinks where
  calls : List Byte
  stdin : List Byte
  broken : Bool

/-- Both sinks empty, pipe intact (line 70). -/
def Sinks.empty : Sinks := { calls := [], stdin := [], broken := false }

/-- `(*bytes.Buffer).Write`: appends everything, returns `len(p)` and nil. -/
def bufferWrite (calls : List Byte) (p : List Byte) : List Byte × Nat :=
  (calls ++ p, p.length)

/-- `Write` on the write end of the OS pipe.  `accept` is how many bytes the pipe takes
this time.  A pipe that took fewer than `len(p)` bytes reports an error and is broken
(closed, or no reader left); a broken pipe takes nothing more.  Returns the sinks,
the count written and whether an error is returned. -/
def stdinWrite (s : Sinks) (p : List Byte) (accept : Nat) : Sinks × Nat × Bool :=
  if s.broken then (s, 0, true)
  else
    let n := min accept p.length
    if n < p.length then
      ({ s with stdin := s.stdin ++ p.take n, broken := true }, n, true)
    else
      ({ s with stdin := s.stdin ++ p }, n, false)

/-- `newWriter.Write(p)` for `newWriter = io.MultiWriter(calls, stdin)`: each writer in
turn, stopping at the first error or short write.  Returns the sinks and whether an
error is returned. -/
def newWriter (s : Sinks) (p : List Byte) (accept : Nat) : Sinks × Bool :=
  let (calls1, n1) := bufferWrite s.calls p
  let s1 := { s with calls := calls1 }
  if n1 ≠ p.length then (s1, true)
  else
    let (s2, n2, err) := stdinWrite s1 p accept
    if err then (s2, true)
    else if n2 ≠ p.length then (s2, true)
    else (s2, false)

/-- A sequence of writes through `newWriter`, each with the pipe's answer. -/
def writeAll (s : Sinks) : List (List Byte × Nat) → Sinks
  | [] => s
  | (p, accept) :: rest => writeAll (newWriter s p accept).1 rest

/-- Whether some write of the sequence returned an error. -/
def anyFailed (s : Sinks) : List (List Byte × Nat) → Bool
  | [] => false
  | (p, accept) :: rest =>
    (newWriter s p accept).2 || anyFailed (newWriter s p accept).1 rest

/-! ## The shape of a trace -/

/-- The code location `Run` settles on at lines 90-95. -/
def settledLocation (env : Env) (g : Globals) : String :=
  if g.codeLocation = "" then env.getwd.1 else g.codeLocation

/-- The handshake call of line 114 with the params `Run` builds, answered with an
error. -/
def FailedInitialize (env : Env) (g : Globals) (e : Event) : Prop :=
  e.op = initializeCall (mkInitializeParams (settledLocation env g)) ∧ e.err ≠ none

/-- The handshake call of line 114 answered without error. -/
def okInitialize (env : Env) (g : Globals) : Event :=
  ⟨initializeCall (mkInitializeParams (settledLocation env g)), none⟩

/-- What may follow the failed `initialize` calls in a trace, by program point. -/
def TailAt (env : Env) (g : Globals) : PC → List Event → Prop
  | PC.start, tail => tail = []
  | PC.panicked, tail => tail = []
  | PC.initLoop, tail => tail = []
  | PC.notifyInitialized, tail => tail = [okInitialize env g]
  | PC.callMethod, tail => tail = [okInitialize env g, ⟨initializedNotify, none⟩]
  | PC.returned, tail =>
      tail = [] ∨
      (∃ e, tail = [okInitialize env g, ⟨initializedNotify, some e⟩]) ∨
      (∃ r, tail = [okInitialize env g, ⟨initializedNotify, none⟩, ⟨methodCall g, r⟩])

/-- The invariant of `Run`: the trace is a run of failed `initialize` calls followed by
the tail its program point allows; outside the loop an empty tail means that nothing was
issued at all; inside the loop the params are the ones built at line 96. -/
structure Shape (env : Env) (g : Globals) (s : State) : Prop where
  fails_tail : ∃ fails tail, s.trace = fails ++ tail ∧
    (∀ e ∈ fails, FailedInitialize env g e) ∧ TailAt env g s.pc tail ∧
    (tail = [] → s.pc ≠ PC.initLoop → fails = [])
  start_location : s.pc = PC.start → s.codeLocation = g.codeLocation
  loop_params : s.pc = PC.initLoop → s.params = mkInitializeParams (settledLocation env g)

/-- An `initialize` Call in the sense of the handshake: method `initialize` carrying
`protocol.InitializeParams` (line 114). -/
def isInitializeCall : Event → Bool
  | ⟨Op.call m (Params.initializeParams _), _⟩ => m == "initialize"
  | _ => false

/-- Number of `initialize` Calls in a trace. -/
def countInitialize (t : List Event) : Nat :=
  t.countP isInitializeCall

/-- A Notify, of any method. -/
def isNotify : Event → Bool
  | ⟨Op.notify _ _, _⟩ => true
  | _ => false

/-- Every recorded result is the one the peer gave at that position. -/
def Answered (peer : Peer) (s : State) : Prop :=
  ∀ i e, s.trace[i]? = some e → e.err = peer i

/-! ## Sample inputs -/

/-- An environment in which both pipes open and the working directory is known. -/
def sampleEnv : Env :=
  { stdinPipeErr := none, stdoutPipeErr := none, getwd := ("/home/dev/project", none) }

/-- The globals after the usage example of root.go 29: method `workspace/symbol`, params
the object whose member `query` is `*`. -/
def sampleGlobals : Globals :=
  { initialGlobals with
    method := "workspace/symbol", jsonData := some [("query", Value.string "*")] }

/-- A peer that answers every operation without error. -/
def readyPeer : Peer := fun _ => none

/-- A peer whose stream is closed: every operation fails with connection-closed. -/
def closedPeer : Peer := fun _ => some RpcError.connectionClosed

/-- A peer that is not ready for the first two operations and answers from then on. -/
def slowPeer : Peer := fun i => if i < 2 then some (RpcError.remote (-32002) "not ready") else none

/-- A peer that accepts `initialize` and then fails the `initialized` Notify. -/
def notifyFailPeer : Peer := fun i => if i = 1 then some RpcError.connectionClosed else none

/-- A stand-in for `json.Unmarshal` on the texts used below: the object of the usage
example decodes into a fresh map, the text `null` sets the map to nil, any other text is
rejected and leaves the map as it was. -/
def sampleUnmarshal : Unmarshal := fun text current =>
  if text = "\x7b\"query\": \"*\"\x7d" then (some [("query", Value.string "*")], none)
  else if text = "null" then (none, none)
  else (current, some "invalid character")

/-- Three writes: the pipe takes the first whole, breaks one byte into the second and
takes nothing of the third. -/
def sampleWrites : List (List Byte × Nat) :=
  [([1, 2, 3], 3), ([4, 5], 1), ([6], 5)]

/-- Two writes that the pipe takes whole. -/
def sampleWritesOk : List (List Byte × Nat) :=
  [([1, 2, 3], 3), ([4, 5], 8)]

/-- What `newWriter` maintains: the bytes the pipe accepted begin the captured copy, and
are all of it while the pipe is intact. -/
def Captured (s : Sinks) : Prop :=
  s.stdin <+: s.calls ∧ (s.broken = false → s.stdin = s.calls)

/-! ## Basic facts about `Run` -/

theorem Run_succ (env : Env) (peer : Peer) (g : Globals) (n : Nat) :
    Run env peer g (n + 1) = step env peer g (Run env peer g n) := rfl

theorem shape_init (env : Env) (g : Globals) : Shape env g (State.init g) := by
  refine ⟨⟨[], [], ?_, ?_, ?_, ?_⟩, ?_, ?_⟩ <;> simp [State.init, TailAt]

theorem step_initLoop_ok (env : Env) (peer : Peer) (g : Globals) (s : State)
    (hpc : s.pc = PC.initLoop) (hr : peer s.trace.length = none) :
    step env peer g s =
      { s with pc := PC.notifyInitialized,
               trace := s.trace ++ [⟨initializeCall s.params, none⟩] } := by
  simp [step, hpc, State.issue, hr]

theorem step_initLoop_err (env : Env) (peer : Peer) (g : Globals) (s : State)
    (hpc : s.pc = PC.initLoop) (e : RpcError) (hr : peer s.trace.length = some e) :
    step env peer g s =
      { s with pc := PC.initLoop,
               trace := s.trace ++ [⟨initializeCall s.params, some e⟩] } := by
  simp [step, hpc, State.issue, hr]

theorem step_notify_ok (env : Env) (peer : Peer) (g : Globals) (s : State)
    (hpc : s.pc = PC.notifyInitialized) (hr : peer s.trace.length = none) :
    step env peer g s =
      { s with pc := PC.callMethod, trace := s.trace ++ [⟨initializedNotify, none⟩] } := by
  simp [step, hpc, State.issue, hr]

theorem step_notify_err (env : Env) (peer : Peer) (g : Globals) (s : State)
    (hpc : s.pc = PC.notifyInitialized) (e : RpcError)
    (hr : peer s.trace.length = some e) :
    step env peer g s =
      { s with pc := PC.returned, trace := s.trace ++ [⟨initializedNotify, some e⟩] } := by
  simp [step, hpc, State.issue, hr]

theorem step_callMethod (env : Env) (peer : Peer) (g : Globals) (s : State)
    (hpc : s.pc = PC.callMethod) :
    step env peer g s =
      { s with pc := PC.returned,
               trace := s.trace ++ [⟨methodCall g, peer s.trace.length⟩] } := by
  simp [step, hpc, State.issue]

theorem step_returned (env : Env) (peer : Peer) (g : Globals) (s : State)
    (hpc : s.pc = PC.returned) : step env peer g s = s := by
  simp [step, hpc]

theorem step_panicked (env : Env) (peer : Peer) (g : Globals) (s : State)
    (hpc : s.pc = PC.panicked) : step env peer g s = s := by
  simp [step, hpc]

theorem shape_step (env : Env) (peer : Peer) (g : Globals) (s : State)
    (h : Shape env g s) : Shape env g (step env peer g s) := by
  obtain ⟨⟨fails, tail, ht, hf, htail, hnil⟩, hloc, hpar⟩ := h
  cases hpc : s.pc
  all_goals simp only [hpc] at htail hnil hloc hpar
  all_goals simp only [TailAt] at htail
  · -- start
    subst htail
    have hfails : fails = [] := hnil rfl (by simp)
    subst hfails
    unfold step
    simp only [hpc]
    split
    · refine ⟨⟨[], [], ?_, ?_, ?_, ?_⟩, ?_, ?_⟩ <;> simp_all [TailAt]
    · split
      · refine ⟨⟨[], [], ?_, ?_, ?_, ?_⟩, ?_, ?_⟩ <;> simp_all [TailAt]
      · split
        · refine ⟨⟨[], [], ?_, ?_, ?_, ?_⟩, ?_, ?_⟩ <;> simp_all [TailAt]
        · refine ⟨⟨[], [], ?_, ?_, ?_, ?_⟩, ?_, ?_⟩ <;>
            simp_all [TailAt, settledLocation]
  · -- initLoop
    subst htail
    simp only [true_implies] at hpar
    rcases hr : peer s.trace.length with _ | e
    · rw [step_initLoop_ok env peer g s hpc hr]
      refine ⟨⟨fails, [okInitialize env g], ?_, hf, ?_, ?_⟩, ?_, ?_⟩ <;>
        simp [TailAt, ht, okInitialize, hpar]
    · rw [step_initLoop_err env peer g s hpc e hr]
      refine ⟨⟨fails ++ [⟨initializeCall s.params, some e⟩], [], ?_, ?_, ?_, ?_⟩, ?_, ?_⟩ <;>
        simp [TailAt, ht, hpar]
      intro x hx
      rcases hx with hx | hx
      · exact hf x hx
      · subst hx
        simp [FailedInitialize]
  · -- notifyInitialized
    subst htail
    rcases hr : peer s.trace.length with _ | e
    · rw [step_notify_ok env peer g s hpc hr]
      refine ⟨⟨fails, [okInitialize env g, ⟨initializedNotify, none⟩], ?_, hf, ?_, ?_⟩,
        ?_, ?_⟩ <;> simp [TailAt, ht]
    · rw [step_notify_err env peer g s hpc e hr]
      refine ⟨⟨fails, [okInitialize env g, ⟨initializedNotify, some e⟩], ?_, hf, ?_, ?_⟩,
        ?_, ?_⟩ <;> simp [TailAt, ht]
  · -- callMethod
    subst htail
    rw [step_callMethod env peer g s hpc]
    refine ⟨⟨fails, [okInitialize env g, ⟨initializedNotify, none⟩,
      ⟨methodCall g, peer s.trace.length⟩], ?_, hf, ?_, ?_⟩, ?_, ?_⟩ <;> simp [TailAt, ht]
  · -- returned
    rw [step_returned env peer g s hpc]
    refine ⟨⟨fails, tail, ht, hf, ?_, ?_⟩, ?_, ?_⟩ <;> simp [hpc, TailAt]
    · exact htail
    · exact fun h0 => hnil h0 (by simp)
  · -- panicked
    rw [step_panicked env peer g s hpc]
    refine ⟨⟨fails, tail, ht, hf, ?_, ?_⟩, ?_, ?_⟩ <;> simp [hpc, TailAt]
    · exact htail
    · exact fun _ => hnil htail (by simp)

theorem shape_Run (env : Env) (peer : Peer) (g : Globals) (n : Nat) :
    Shape env g (Run env peer g n) := by
  induction n with
  | zero => exact shape_init env g
  | succ n ih => exact shape_step env peer g _ ih

/-! ## Reading a trace by position -/

theorem getElem?_append_cases {α : Type} (xs ys : List α) (i : Nat) (a : α)
    (h : (xs ++ ys)[i]? = some a) :
    (a ∈ xs ∧ i < xs.length) ∨ ∃ j, i = xs.length + j ∧ ys[j]? = some a := by
  by_cases hi : i < xs.length
  · rw [List.getElem?_append_left hi] at h
    exact Or.inl ⟨List.getElem?_mem h, hi⟩
  · have hle : xs.length ≤ i := Nat.le_of_not_lt hi
    rw [List.getElem?_append_right hle] at h
    exact Or.inr ⟨i - xs.length, by omega, h⟩

theorem getElem?_append_add {α : Type} (xs ys : List α) (j : Nat) :
    (xs ++ ys)[xs.length + j]? = ys[j]? := by
  rw [List.getElem?_append_right (Nat.le_add_right _ _)]
  simp

/-- The tails a trace can have, each with the program points it occurs at. -/
theorem tail_cases (env : Env) (g : Globals) (pc : PC) (tail : List Event)
    (h : TailAt env g pc tail) :
    (tail = [] ∧ pc ≠ PC.notifyInitialized ∧ pc ≠ PC.callMethod) ∨
    (tail = [okInitialize env g] ∧ pc = PC.notifyInitialized) ∨
    (tail = [okInitialize env g, ⟨initializedNotify, none⟩] ∧ pc = PC.callMethod) ∨
    (∃ e, tail = [okInitialize env g, ⟨initializedNotify, some e⟩] ∧ pc = PC.returned) ∨
    (∃ r, tail = [okInitialize env g, ⟨initializedNotify, none⟩, ⟨methodCall g, r⟩] ∧
      pc = PC.returned) := by
  cases pc <;> simp only [TailAt] at h
  · exact Or.inl ⟨h, by simp, by simp⟩
  · exact Or.inl ⟨h, by simp, by simp⟩
  · exact Or.inr (Or.inl ⟨h, rfl⟩)
  · exact Or.inr (Or.inr (Or.inl ⟨h, rfl⟩))
  · rcases h with h | ⟨e, h⟩ | ⟨r, h⟩
    · exact Or.inl ⟨h, by simp, by simp⟩
    · exact Or.inr (Or.inr (Or.inr (Or.inl ⟨e, h, rfl⟩)))
    · exact Or.inr (Or.inr (Or.inr (Or.inr ⟨r, h, rfl⟩)))
  · exact Or.inl ⟨h, by simp, by simp⟩

theorem Run_add (env : Env) (peer : Peer) (g : Globals) (n m : Nat) :
    Run env peer g (n + (m + 1)) = step env peer g (Run env peer g (n + m)) := rfl

theorem Run_returned_stable (env : Env) (peer : Peer) (g : Globals) (n : Nat)
    (h : (Run env peer g n).pc = PC.returned) (m : Nat) :
    Run env peer g (n + m) = Run env peer g n := by
  induction m with
  | zero => rfl
  | succ m ih =>
    rw [Run_add, ih, step_returned _ _ _ _ h]

theorem step_trace_prefix (env : Env) (peer : Peer) (g : Globals) (s : State) :
    ∃ r, (step env peer g s).trace = s.trace ++ r := by
  cases hpc : s.pc
  · refine ⟨[], ?_⟩
    unfold step
    simp only [hpc]
    split
    · simp
    · split
      · simp
      · split <;> simp
  · rcases hr : peer s.trace.length with _ | e
    · exact ⟨_, by rw [step_initLoop_ok env peer g s hpc hr]⟩
    · exact ⟨_, by rw [step_initLoop_err env peer g s hpc e hr]⟩
  · rcases hr : peer s.trace.length with _ | e
    · exact ⟨_, by rw [step_notify_ok env peer g s hpc hr]⟩
    · exact ⟨_, by rw [step_notify_err env peer g s hpc e hr]⟩
  · exact ⟨_, by rw [step_callMethod env peer g s hpc]⟩
  · exact ⟨[], by rw [step_returned env peer g s hpc]; simp⟩
  · exact ⟨[], by rw [step_panicked env peer g s hpc]; simp⟩

theorem Run_trace_prefix (env : Env) (peer : Peer) (g : Globals) (n m : Nat) :
    ∃ r, (Run env peer g (n + m)).trace = (Run env peer g n).trace ++ r := by
  induction m with
  | zero => exact ⟨[], by simp⟩
  | succ m ih =>
    obtain ⟨r, hr⟩ := ih
    obtain ⟨r2, hr2⟩ := step_trace_prefix env peer g (Run env peer g (n + m))
    exact ⟨r ++ r2, by rw [Run_add, hr2, hr, List.append_assoc]⟩

theorem Run_trace_keeps (env : Env) (peer : Peer) (g : Globals) (n m i : Nat) (e : Event)
    (h : (Run env peer g n).trace[i]? = some e) :
    (Run env peer g (n + m)).trace[i]? = some e := by
  obtain ⟨r, hr⟩ := Run_trace_prefix env peer g n m
  have hi : i < (Run env peer g n).trace.length := (List.getElem?_eq_some.mp h).1
  rw [hr, List.getElem?_append_left hi]
  exact h

theorem answered_append (peer : Peer) (t : List Event) (op : Op)
    (h : ∀ i e, t[i]? = some e → e.err = peer i) :
    ∀ i e, (t ++ [⟨op, peer t.length⟩])[i]? = some e → e.err = peer i := by
  intro i e hi
  rcases getElem?_append_cases _ _ _ _ hi with ⟨-, hlt⟩ | ⟨j, rfl, hj⟩
  · rw [List.getElem?_append_left hlt] at hi
    exact h i e hi
  · rcases j with _ | j
    · simp at hj
      subst hj
      rfl
    · simp at hj

theorem answered_step (env : Env) (peer : Peer) (g : Globals) (s : State)
    (h : Answered peer s) : Answered peer (step env peer g s) := by
  unfold Answered at *
  cases hpc : s.pc
  · unfold step
    simp only [hpc]
    split
    · exact h
    · split
      · exact h
      · split
        · exact h
        · exact h
  · rcases hr : peer s.trace.length with _ | e
    · rw [step_initLoop_ok env peer g s hpc hr, ← hr]
      exact answered_append peer s.trace _ h
    · rw [step_initLoop_err env peer g s hpc e hr, ← hr]
      exact answered_append peer s.trace _ h
  · rcases hr : peer s.trace.length with _ | e
    · rw [step_notify_ok env peer g s hpc hr, ← hr]
      exact answered_append peer s.trace _ h
    · rw [step_notify_err env peer g s hpc e hr, ← hr]
      exact answered_append peer s.trace _ h
  · rw [step_callMethod env peer g s hpc]
    exact answered_append peer s.trace _ h
  · rw [step_returned env peer g s hpc]
    exact h
  · rw [step_panicked env peer g s hpc]
    exact h

theorem answered_Run (env : Env) (peer : Peer) (g : Globals) (n : Nat) :
    Answered peer (Run env peer g n) := by
  induction n with
  | zero => intro i e hi; simp [Run, State.init] at hi
  | succ n ih => exact answered_step env peer g _ ih

/-- The invariant read by position: the first `k` operations are failed `initialize`
calls and the rest is the tail of the program point. -/
theorem Shape.anatomy {env : Env} {g : Globals} {s : State} (h : Shape env g s) :
    ∃ k tail, (∀ i e, s.trace[i]? = some e → i < k → FailedInitialize env g e) ∧
      (∀ j, s.trace[k + j]? = tail[j]?) ∧ s.trace.length = k + tail.length ∧
      TailAt env g s.pc tail ∧ (tail = [] → s.pc ≠ PC.initLoop → k = 0) := by
  obtain ⟨fails, tail, ht, hf, htail, hnil⟩ := h.fails_tail
  refine ⟨fails.length, tail, ?_, ?_, ?_, htail, ?_⟩
  · intro i e hi hlt
    rw [ht, List.getElem?_append_left hlt] at hi
    exact hf e (List.getElem?_mem hi)
  · intro j
    rw [ht]
    exact getElem?_append_add fails tail j
  · rw [ht, List.length_append]
  · intro h0 hpc
    rw [hnil h0 hpc]
    rfl

theorem Shape.position {env : Env} {g : Globals} {s : State} (h : Shape env g s) :
    ∃ k tail, (∀ i e, s.trace[i]? = some e →
        (i < k ∧ FailedInitialize env g e) ∨ ∃ j, i = k + j ∧ tail[j]? = some e) ∧
      (∀ j, s.trace[k + j]? = tail[j]?) ∧ s.trace.length = k + tail.length ∧
      TailAt env g s.pc tail ∧ (tail = [] → s.pc ≠ PC.initLoop → k = 0) := by
  obtain ⟨k, tail, hfail, htl, hlen, hT, h0⟩ := h.anatomy
  refine ⟨k, tail, ?_, htl, hlen, hT, h0⟩
  intro i e hi
  by_cases hik : i < k
  · exact Or.inl ⟨hik, hfail i e hi hik⟩
  · refine Or.inr ⟨i - k, by omega, ?_⟩
    have : i = k + (i - k) := by omega
    rw [this, htl] at hi
    exact hi

/-! ## C1: the handshake comes first -/

/-- C1. In every execution of `Run`, against every peer and after any number of steps:
the Call carrying the user's method (line 126) stands in the trace only right after an
`initialize` Call that returned without error and the `initialized` Notify that then
returned without error; and if the `initialized` Notify returned an error, `Run` has
returned and that Notify is the last operation ever issued on the connection. -/
theorem handshake_precedes_method_call (env : Env) (peer : Peer) (g : Globals)
    (fuel : Nat) :
    (∀ i r, (Run env peer g fuel).trace[i]? = some ⟨methodCall g, r⟩ →
      ∃ k, i = k + 2 ∧
        (Run env peer g fuel).trace[k]? = some (okInitialize env g) ∧
        (Run env peer g fuel).trace[k + 1]? = some ⟨initializedNotify, none⟩) ∧
    (∀ i e, (Run env peer g fuel).trace[i]? = some ⟨initializedNotify, some e⟩ →
      (Run env peer g fuel).pc = PC.returned ∧
      ∀ more, (Run env peer g (fuel + more)).pc = PC.returned ∧
        (Run env peer g (fuel + more)).trace.length = i + 1) := by
  obtain ⟨k, tail, hpos, htl, hlen, hT, -⟩ := (shape_Run env peer g fuel).position
  constructor
  · intro i r hi
    rcases hpos i _ hi with ⟨-, hop, -⟩ | ⟨j, rfl, hj⟩
    · simp [methodCall, initializeCall] at hop
    · rcases tail_cases env g _ tail hT with
        ⟨rfl, -⟩ | ⟨rfl, -⟩ | ⟨rfl, -⟩ | ⟨e, rfl, -⟩ | ⟨r2, rfl, -⟩
      · simp at hj
      · rcases j with _ | j <;>
          simp [okInitialize, methodCall, initializeCall] at hj
      · rcases j with _ | _ | j <;>
          simp [okInitialize, methodCall, initializeCall, initializedNotify] at hj
      · rcases j with _ | _ | j <;>
          simp [okInitialize, methodCall, initializeCall, initializedNotify] at hj
      · rcases j with _ | _ | _ | j <;>
          simp [okInitialize, methodCall, initializeCall, initializedNotify] at hj
        refine ⟨k, rfl, ?_, ?_⟩
        · have := htl 0
          simpa using this
        · have := htl 1
          simpa using this
  · intro i e hi
    have key : (Run env peer g fuel).pc = PC.returned ∧
        (Run env peer g fuel).trace.length = i + 1 := by
      rcases hpos i _ hi with ⟨-, hop, -⟩ | ⟨j, rfl, hj⟩
      · simp [initializedNotify, initializeCall] at hop
      · rcases tail_cases env g _ tail hT with
          ⟨rfl, -⟩ | ⟨rfl, -⟩ | ⟨rfl, -⟩ | ⟨e2, rfl, hpc⟩ | ⟨r2, rfl, -⟩
        · simp at hj
        · rcases j with _ | j <;>
            simp [okInitialize, initializeCall, initializedNotify] at hj
        · rcases j with _ | _ | j <;>
            simp [okInitialize, initializeCall, initializedNotify] at hj
        · rcases j with _ | _ | j <;>
            simp [okInitialize, initializeCall, initializedNotify] at hj
          exact ⟨hpc, by simp [hlen]⟩
        · rcases j with _ | _ | _ | j <;>
            simp [okInitialize, methodCall, initializeCall, initializedNotify] at hj
    refine ⟨key.1, fun more => ?_⟩
    rw [Run_returned_stable env peer g fuel key.1 more]
    exact key

/-- Witness for C1 on a run that completes the handshake and makes the user call, and
on a run whose `initialized` Notify fails. -/
theorem handshake_precedes_method_call_witness :
    (∃ k, 4 = k + 2 ∧
      (Run sampleEnv slowPeer sampleGlobals 6).trace[k]? =
        some (okInitialize sampleEnv sampleGlobals) ∧
      (Run sampleEnv slowPeer sampleGlobals 6).trace[k + 1]? =
        some ⟨initializedNotify, none⟩) ∧
    ((Run sampleEnv notifyFailPeer sampleGlobals 3).pc = PC.returned ∧
      (Run sampleEnv notifyFailPeer sampleGlobals (3 + 7)).pc = PC.returned ∧
      (Run sampleEnv notifyFailPeer sampleGlobals (3 + 7)).trace.length = 1 + 1) :=
  ⟨(handshake_precedes_method_call sampleEnv slowPeer sampleGlobals 6).1 4 none rfl,
   ((handshake_precedes_method_call sampleEnv notifyFailPeer sampleGlobals 3).2 1
     RpcError.connectionClosed rfl).1,
   ((handshake_precedes_method_call sampleEnv notifyFailPeer sampleGlobals 3).2 1
     RpcError.connectionClosed rfl).2 7⟩

/-! ## C5: every failed `initialize` is retried -/

theorem step_initLoop_trace (env : Env) (peer : Peer) (g : Globals) (s : State)
    (hpc : s.pc = PC.initLoop) :
    (step env peer g s).trace =
      s.trace ++ [⟨initializeCall s.params, peer s.trace.length⟩] := by
  rcases hr : peer s.trace.length with _ | e
  · rw [step_initLoop_ok env peer g s hpc hr]
  · rw [step_initLoop_err env peer g s hpc e hr]

theorem initializeCall_injective (p q : InitializeParams)
    (h : initializeCall p = initializeCall q) : p = q := by
  simpa [initializeCall] using h

/-- A failed handshake call in a trace stands among the first `k` operations, and carries
the params built at line 96. -/
theorem failed_call_position {env : Env} {g : Globals} {k i : Nat} {tail : List Event}
    {pc : PC} {p : InitializeParams} {err : RpcError} {t : List Event}
    (hpos : ∀ i e, t[i]? = some e →
      (i < k ∧ FailedInitialize env g e) ∨ ∃ j, i = k + j ∧ tail[j]? = some e)
    (hT : TailAt env g pc tail)
    (h : t[i]? = some ⟨initializeCall p, some err⟩) :
    i < k ∧ p = mkInitializeParams (settledLocation env g) := by
  rcases hpos i _ h with ⟨hlt, hop, -⟩ | ⟨j, rfl, hj⟩
  · exact ⟨hlt, initializeCall_injective _ _ hop⟩
  · exfalso
    rcases tail_cases env g _ tail hT with
      ⟨rfl, -⟩ | ⟨rfl, -⟩ | ⟨rfl, -⟩ | ⟨e, rfl, -⟩ | ⟨r2, rfl, -⟩
    · simp at hj
    · rcases j with _ | j <;>
        simp [okInitialize, initializeCall] at hj
    · rcases j with _ | _ | j <;>
        simp [okInitialize, initializeCall, initializedNotify] at hj
    · rcases j with _ | _ | j <;>
        simp [okInitialize, initializeCall, initializedNotify] at hj
    · rcases j with _ | _ | _ | j <;>
        simp [okInitialize, methodCall, initializeCall, initializedNotify] at hj

/-- After a failed handshake call `Run` stands at the loop head and the next operation is
the same call again. -/
theorem retry_after_failure (env : Env) (peer : Peer) (g : Globals)
    (fuel i : Nat) (p : InitializeParams) (err : RpcError)
    (h : (Run env peer g fuel).trace[i]? = some ⟨initializeCall p, some err⟩) :
    ((Run env peer g fuel).trace.length = i + 1 →
      (Run env peer g fuel).pc = PC.initLoop) ∧
    (Run env peer g (fuel + 1)).trace[i + 1]? =
      some ⟨initializeCall p, peer (i + 1)⟩ := by
  have hshape := shape_Run env peer g fuel
  have hans := answered_Run env peer g fuel
  obtain ⟨k, tail, hpos, htl, hlen, hT, h0⟩ := hshape.position
  obtain ⟨hlt, rfl⟩ := failed_call_position hpos hT h
  have hloop : tail = [] → (Run env peer g fuel).pc = PC.initLoop := by
    intro htail
    by_contra hne
    have := h0 htail hne
    omega
  constructor
  · intro hlast
    apply hloop
    have : tail.length = 0 := by omega
    exact List.length_eq_zero.mp this
  · by_cases hnext : i + 1 < (Run env peer g fuel).trace.length
    · -- the next operation is already in the trace
      obtain ⟨e2, he2⟩ : ∃ e2, (Run env peer g fuel).trace[i + 1]? = some e2 :=
        ⟨_, List.getElem?_eq_getElem hnext⟩
      have herr := hans _ _ he2
      have hop : e2.op = initializeCall (mkInitializeParams (settledLocation env g)) := by
        rcases hpos _ _ he2 with ⟨-, hop, -⟩ | ⟨j, hij, hj⟩
        · exact hop
        · have hj0 : j = 0 := by omega
          subst hj0
          rcases tail_cases env g _ tail hT with
            ⟨rfl, -⟩ | ⟨rfl, -⟩ | ⟨rfl, -⟩ | ⟨e, rfl, -⟩ | ⟨r2, rfl, -⟩ <;>
            simp at hj <;> subst hj <;> rfl
      have : e2 = ⟨initializeCall (mkInitializeParams (settledLocation env g)),
          peer (i + 1)⟩ := by
        cases e2
        simp only at hop herr
        rw [hop, herr]
      rw [← this]
      exact Run_trace_keeps env peer g fuel 1 _ _ he2
    · -- the failed call is the latest operation: the loop issues the next one
      have hlast : (Run env peer g fuel).trace.length = i + 1 := by
        have := (List.getElem?_eq_some.mp h).1
        omega
      have htail : tail = [] := by
        have : tail.length = 0 := by omega
        exact List.length_eq_zero.mp this
      have hpc := hloop htail
      rw [Run_succ, step_initLoop_trace env peer g _ hpc, hshape.loop_params hpc,
        ← hlast, List.getElem?_append_right (Nat.le_refl _)]
      simp

/-- C5. Every failed `initialize` Call, whatever its error, is retried: while it is the
latest operation `Run` has not returned but stands at the head of the loop, and the
operation issued next on the connection is again the `initialize` Call with the same
params. -/
theorem failed_initialize_is_retried (env : Env) (peer : Peer) (g : Globals)
    (fuel i : Nat) (p : InitializeParams) (err : RpcError)
    (h : (Run env peer g fuel).trace[i]? = some ⟨initializeCall p, some err⟩) :
    ((Run env peer g fuel).trace.length = i + 1 →
      (Run env peer g fuel).pc = PC.initLoop) ∧
    (Run env peer g (fuel + 1)).trace[i + 1]? =
      some ⟨initializeCall p, peer (i + 1)⟩ :=
  retry_after_failure env peer g fuel i p err h

/-- Witness for C5: the second failed `initialize` Call against a peer that is slow to
become ready. -/
theorem failed_initialize_is_retried_witness :
    ((Run sampleEnv slowPeer sampleGlobals 3).trace.length = 1 + 1 →
      (Run sampleEnv slowPeer sampleGlobals 3).pc = PC.initLoop) ∧
    (Run sampleEnv slowPeer sampleGlobals (3 + 1)).trace[1 + 1]? =
      some ⟨initializeCall (mkInitializeParams "/home/dev/project"), slowPeer (1 + 1)⟩ :=
  failed_initialize_is_retried sampleEnv slowPeer sampleGlobals 3 1
    (mkInitializeParams "/home/dev/project") (RpcError.remote (-32002) "not ready") rfl

/-! ## C4: `initialized` is notified exactly once -/

theorem step_past_handshake (env : Env) (peer : Peer) (g : Globals) (s : State)
    (h : s.pc = PC.notifyInitialized ∨ s.pc = PC.callMethod ∨ s.pc = PC.returned) :
    (step env peer g s).pc = PC.callMethod ∨ (step env peer g s).pc = PC.returned := by
  rcases h with hpc | hpc | hpc
  · rcases hr : peer s.trace.length with _ | e
    · rw [step_notify_ok env peer g s hpc hr]; exact Or.inl rfl
    · rw [step_notify_err env peer g s hpc e hr]; exact Or.inr rfl
  · rw [step_callMethod env peer g s hpc]; exact Or.inr rfl
  · rw [step_returned env peer g s hpc]; exact Or.inr hpc

theorem Run_past_handshake (env : Env) (peer : Peer) (g : Globals) (n : Nat)
    (h : (Run env peer g n).pc = PC.notifyInitialized ∨
      (Run env peer g n).pc = PC.callMethod ∨ (Run env peer g n).pc = PC.returned)
    (m : Nat) :
    (Run env peer g (n + 1 + m)).pc = PC.callMethod ∨
      (Run env peer g (n + 1 + m)).pc = PC.returned := by
  induction m with
  | zero => exact step_past_handshake env peer g _ h
  | succ m ih =>
    exact step_past_handshake env peer g _ (Or.inr ih)

/-- A successful handshake call in a trace is the first operation of the tail. -/
theorem ok_call_position {env : Env} {g : Globals} {k i : Nat} {tail : List Event}
    {pc : PC} {e : Event} {t : List Event}
    (hpos : ∀ i e, t[i]? = some e →
      (i < k ∧ FailedInitialize env g e) ∨ ∃ j, i = k + j ∧ tail[j]? = some e)
    (hT : TailAt env g pc tail)
    (h : t[i]? = some e) (hcall : isInitializeCall e = true) (hok : e.err = none) :
    i = k ∧ tail[0]? = some e := by
  rcases hpos i _ h with ⟨-, -, herr⟩ | ⟨j, rfl, hj⟩
  · exact absurd hok herr
  · rcases tail_cases env g _ tail hT with
      ⟨rfl, -⟩ | ⟨rfl, -⟩ | ⟨rfl, -⟩ | ⟨e2, rfl, -⟩ | ⟨r2, rfl, -⟩
    · simp at hj
    · rcases j with _ | j
      · exact ⟨rfl, hj⟩
      · simp at hj
    · rcases j with _ | _ | j
      · exact ⟨rfl, hj⟩
      · simp at hj; subst hj; simp [isInitializeCall, initializedNotify] at hcall
      · simp at hj
    · rcases j with _ | _ | j
      · exact ⟨rfl, hj⟩
      · simp at hj; subst hj; simp [isInitializeCall, initializedNotify] at hcall
      · simp at hj
    · rcases j with _ | _ | _ | j
      · exact ⟨rfl, hj⟩
      · simp at hj; subst hj; simp [isInitializeCall, initializedNotify] at hcall
      · simp at hj; subst hj; simp [isInitializeCall, methodCall] at hcall
      · simp at hj

theorem failed_not_notify {env : Env} {g : Globals} {e : Event}
    (h : FailedInitialize env g e) : isNotify e = false := by
  obtain ⟨op, err⟩ := e
  obtain ⟨hop, -⟩ := h
  simp only at hop
  subst hop
  rfl

/-- C4. If some `initialize` Call of the handshake has returned without error (at
position `k` of the trace), then from the next step on the `initialized` Notify stands at
position `k + 1`, right after that Call, it is the only Notify of the trace, and no
`initialize` Call of the handshake follows it.  If no `initialize` Call of the trace
has returned without error, the trace holds no Notify. -/
theorem initialized_notified_once (env : Env) (peer : Peer) (g : Globals) (fuel : Nat) :
    (∀ k e, (Run env peer g fuel).trace[k]? = some e → isInitializeCall e = true →
      e.err = none → ∀ more,
        (Run env peer g (fuel + 1 + more)).trace[k + 1]? =
          some ⟨initializedNotify, peer (k + 1)⟩ ∧
        (∀ j e2, (Run env peer g (fuel + 1 + more)).trace[j]? = some e2 →
          isNotify e2 = true → j = k + 1) ∧
        (∀ j e2, (Run env peer g (fuel + 1 + more)).trace[j]? = some e2 →
          k + 1 < j → isInitializeCall e2 = false)) ∧
    ((∀ (i : Nat) e, (Run env peer g fuel).trace[i]? = some e →
        isInitializeCall e = true → e.err ≠ none) →
      ∀ (i : Nat) e, (Run env peer g fuel).trace[i]? = some e → isNotify e = false) := by
  constructor
  · intro k e hk hcall hok more
    -- where the run stands when the successful call is in the trace
    have hpc : (Run env peer g fuel).pc = PC.notifyInitialized ∨
        (Run env peer g fuel).pc = PC.callMethod ∨
        (Run env peer g fuel).pc = PC.returned := by
      obtain ⟨k0, tail0, hpos0, -, -, hT0, -⟩ := (shape_Run env peer g fuel).position
      obtain ⟨-, h0⟩ := ok_call_position hpos0 hT0 hk hcall hok
      rcases tail_cases env g _ tail0 hT0 with
        ⟨rfl, -⟩ | ⟨-, hp⟩ | ⟨-, hp⟩ | ⟨_, -, hp⟩ | ⟨_, -, hp⟩
      · simp at h0
      · exact Or.inl hp
      · exact Or.inr (Or.inl hp)
      · exact Or.inr (Or.inr hp)
      · exact Or.inr (Or.inr hp)
    have hpast := Run_past_handshake env peer g fuel hpc more
    have hk2 : (Run env peer g (fuel + 1 + more)).trace[k]? = some e := by
      have := Run_trace_keeps env peer g fuel (1 + more) k e hk
      rwa [← Nat.add_assoc] at this
    have hans := answered_Run env peer g (fuel + 1 + more)
    obtain ⟨k2, tail, hpos, htl, -, hT, -⟩ :=
      (shape_Run env peer g (fuel + 1 + more)).position
    obtain ⟨rfl, h0⟩ := ok_call_position hpos hT hk2 hcall hok
    have hnotify : ∃ x rest, tail = okInitialize env g :: ⟨initializedNotify, x⟩ :: rest ∧
        (rest = [] ∨ ∃ r, rest = [⟨methodCall g, r⟩]) := by
      rcases tail_cases env g _ tail hT with
        ⟨rfl, -⟩ | ⟨-, hp⟩ | ⟨rfl, -⟩ | ⟨e2, rfl, -⟩ | ⟨r2, rfl, -⟩
      · simp at h0
      · rcases hpast with h1 | h1 <;> rw [hp] at h1 <;> simp at h1
      · exact ⟨none, [], rfl, Or.inl rfl⟩
      · exact ⟨some e2, [], rfl, Or.inl rfl⟩
      · exact ⟨none, [_], rfl, Or.inr ⟨r2, rfl⟩⟩
    obtain ⟨x, rest, rfl, hrest⟩ := hnotify
    have h1 : (Run env peer g (fuel + 1 + more)).trace[k + 1]? =
        some ⟨initializedNotify, x⟩ := by
      rw [htl 1]; simp
    have hx : x = peer (k + 1) := hans _ _ h1
    refine ⟨by rw [h1, hx], ?_, ?_⟩
    · intro j e2 hj hn
      rcases hpos j e2 hj with ⟨-, hf⟩ | ⟨jj, rfl, hjj⟩
      · rw [failed_not_notify hf] at hn
        exact absurd hn (by simp)
      · rcases jj with _ | _ | jj
        · simp at hjj; subst hjj
          simp [isNotify, okInitialize, initializeCall] at hn
        · rfl
        · rcases hrest with rfl | ⟨r, rfl⟩
          · simp at hjj
          · rcases jj with _ | jj
            · simp at hjj; subst hjj
              simp [isNotify, methodCall] at hn
            · simp at hjj
    · intro j e2 hj hlt
      rcases hpos j e2 hj with ⟨hjk, -⟩ | ⟨jj, rfl, hjj⟩
      · omega
      · rcases jj with _ | _ | jj
        · omega
        · omega
        · rcases hrest with rfl | ⟨r, rfl⟩
          · simp at hjj
          · rcases jj with _ | jj
            · simp at hjj; subst hjj
              simp [isInitializeCall, methodCall]
            · simp at hjj
  · intro hall i e hi
    obtain ⟨k, tail, hpos, htl, -, hT, -⟩ := (shape_Run env peer g fuel).position
    rcases hpos i e hi with ⟨-, hf⟩ | ⟨j, rfl, hj⟩
    · exact failed_not_notify hf
    · exfalso
      have h0 : (Run env peer g fuel).trace[k]? = some (okInitialize env g) := by
        have := htl 0
        rw [Nat.add_zero] at this
        rw [this]
        rcases tail_cases env g _ tail hT with
          ⟨rfl, -⟩ | ⟨rfl, -⟩ | ⟨rfl, -⟩ | ⟨e2, rfl, -⟩ | ⟨r2, rfl, -⟩
        · simp at hj
        all_goals rfl
      exact hall k _ h0 (by simp [isInitializeCall, okInitialize, initializeCall]) rfl

/-- Witness for C4: against the slow peer the third `initialize` Call succeeds and the
Notify follows at position 3; against the closed peer no Notify is ever issued. -/
theorem initialized_notified_once_witness :
    ((Run sampleEnv slowPeer sampleGlobals (4 + 1 + 5)).trace[2 + 1]? =
        some ⟨initializedNotify, slowPeer (2 + 1)⟩ ∧
      (∀ j e2, (Run sampleEnv slowPeer sampleGlobals (4 + 1 + 5)).trace[j]? = some e2 →
        isNotify e2 = true → j = 2 + 1) ∧
      (∀ j e2, (Run sampleEnv slowPeer sampleGlobals (4 + 1 + 5)).trace[j]? = some e2 →
        2 + 1 < j → isInitializeCall e2 = false)) ∧
    (∀ (i : Nat) e, (Run sampleEnv closedPeer sampleGlobals 6).trace[i]? = some e →
      isNotify e = false) :=
  ⟨(initialized_notified_once sampleEnv slowPeer sampleGlobals 4).1 2
      (okInitialize sampleEnv sampleGlobals) rfl rfl rfl 5,
   (initialized_notified_once sampleEnv closedPeer sampleGlobals 6).2 (by
      intro i e hi _
      have := answered_Run sampleEnv closedPeer sampleGlobals 6 i e hi
      rw [this]
      simp [closedPeer])⟩

/-! ## C2, C3: the retry loop has no budget -/

theorem Run_one (env : Env) (peer : Peer) (g : Globals)
    (hcmd : g.languageServerCMD ≠ []) (hin : env.stdinPipeErr = none)
    (hout : env.stdoutPipeErr = none) :
    Run env peer g 1 =
      { pc := PC.initLoop, codeLocation := settledLocation env g,
        params := mkInitializeParams (settledLocation env g), trace := [] } := by
  rcases hg : g.languageServerCMD with _ | ⟨c, cs⟩
  · exact absurd hg hcmd
  · simp [Run, step, State.init, hg, hin, hout, settledLocation]

/-- While every answer is an error, `Run` stays in the loop and the trace is one
`initialize` Call per step. -/
theorem Run_all_failed (env : Env) (peer : Peer) (g : Globals)
    (hcmd : g.languageServerCMD ≠ []) (hin : env.stdinPipeErr = none)
    (hout : env.stdoutPipeErr = none) (n : Nat) (hfail : ∀ i, i < n → peer i ≠ none) :
    (Run env peer g (n + 1)).pc = PC.initLoop ∧
    (Run env peer g (n + 1)).params = mkInitializeParams (settledLocation env g) ∧
    (Run env peer g (n + 1)).trace =
      (List.range n).map
        (fun i => ⟨initializeCall (mkInitializeParams (settledLocation env g)), peer i⟩) := by
  induction n with
  | zero => rw [Run_one env peer g hcmd hin hout]; simp
  | succ n ih =>
    obtain ⟨hpc, hpar, htr⟩ := ih (fun i hi => hfail i (Nat.lt_succ_of_lt hi))
    have hlen : (Run env peer g (n + 1)).trace.length = n := by simp [htr]
    obtain ⟨e, he⟩ : ∃ e, peer n = some e :=
      Option.ne_none_iff_exists'.mp (hfail n (Nat.lt_succ_self n))
    have hr : peer (Run env peer g (n + 1)).trace.length = some e := by rw [hlen, he]
    rw [Run_succ, step_initLoop_err env peer g _ hpc e hr]
    refine ⟨rfl, hpar, ?_⟩
    simp only [htr, hpar, List.range_succ, List.map_append, List.map_cons, List.map_nil, he]

theorem failed_is_call {env : Env} {g : Globals} {e : Event}
    (h : FailedInitialize env g e) : isInitializeCall e = true := by
  obtain ⟨op, err⟩ := e
  obtain ⟨hop, -⟩ := h
  simp only at hop
  subst hop
  rfl

theorem count_all_failed (env : Env) (peer : Peer) (g : Globals)
    (hcmd : g.languageServerCMD ≠ []) (hin : env.stdinPipeErr = none)
    (hout : env.stdoutPipeErr = none) (n : Nat) (hfail : ∀ i, i < n → peer i ≠ none) :
    countInitialize (Run env peer g (n + 1)).trace = n := by
  obtain ⟨-, -, htr⟩ := Run_all_failed env peer g hcmd hin hout n hfail
  have hall : ∀ a ∈ (Run env peer g (n + 1)).trace, isInitializeCall a = true := by
    intro a ha
    rw [htr] at ha
    obtain ⟨i, -, rfl⟩ := List.mem_map.mp ha
    rfl
  unfold countInitialize
  rw [List.countP_eq_length.mpr hall, htr]
  simp

theorem Run_first_success (env : Env) (peer : Peer) (g : Globals)
    (hcmd : g.languageServerCMD ≠ []) (hin : env.stdinPipeErr = none)
    (hout : env.stdoutPipeErr = none) (n : Nat) (hfail : ∀ i, i < n → peer i ≠ none)
    (hok : peer n = none) :
    (Run env peer g (n + 2)).pc = PC.notifyInitialized ∧
    (Run env peer g (n + 2)).trace[n]? = some (okInitialize env g) := by
  obtain ⟨hpc, hpar, htr⟩ := Run_all_failed env peer g hcmd hin hout n hfail
  have hlen : (Run env peer g (n + 1)).trace.length = n := by simp [htr]
  have hr : peer (Run env peer g (n + 1)).trace.length = none := by rw [hlen, hok]
  have hstep : Run env peer g (n + 2) = step env peer g (Run env peer g (n + 1)) := rfl
  rw [hstep, step_initLoop_ok env peer g _ hpc hr]
  refine ⟨rfl, ?_⟩
  simp only
  rw [List.getElem?_append_right (Nat.le_of_eq hlen), hlen, hpar]
  simp [okInitialize]

theorem Run_stays_past (env : Env) (peer : Peer) (g : Globals) (n : Nat)
    (h : (Run env peer g n).pc = PC.notifyInitialized ∨
      (Run env peer g n).pc = PC.callMethod ∨ (Run env peer g n).pc = PC.returned)
    (m : Nat) : (Run env peer g (n + m)).pc ≠ PC.initLoop := by
  rcases m with _ | m
  · rcases h with h | h | h <;> rw [Nat.add_zero, h] <;> simp
  · have := Run_past_handshake env peer g n h m
    have hidx : n + (m + 1) = n + 1 + m := by omega
    rw [hidx]
    rcases this with h | h <;> rw [h] <;> simp

/-- In a trace holding a successful handshake call at position `n` the `initialize`
Calls are the `n` failed ones before it and that one. -/
theorem count_with_success {env : Env} {g : Globals} {s : State} (h : Shape env g s)
    (n : Nat) (hn : s.trace[n]? = some (okInitialize env g)) :
    countInitialize s.trace = n + 1 := by
  obtain ⟨fails, tail, ht, hf, hT, -⟩ := h.fails_tail
  rw [ht] at hn
  have hcount : List.countP isInitializeCall fails = fails.length :=
    List.countP_eq_length.mpr (fun a ha => failed_is_call (hf a ha))
  unfold countInitialize
  rw [ht, List.countP_append, hcount]
  rcases getElem?_append_cases _ _ _ _ hn with ⟨hmem, -⟩ | ⟨j, rfl, hj⟩
  · exact absurd rfl (hf _ hmem).2
  · rcases tail_cases env g _ tail hT with
      ⟨rfl, -⟩ | ⟨rfl, -⟩ | ⟨rfl, -⟩ | ⟨e, rfl, -⟩ | ⟨r, rfl, -⟩
    · simp at hj
    · rcases j with _ | j
      · simp [List.countP_cons, isInitializeCall, okInitialize, initializeCall]
      · simp at hj
    · rcases j with _ | _ | j
      · simp [List.countP_cons, isInitializeCall, okInitialize, initializeCall,
          initializedNotify]
      · simp [okInitialize, initializeCall, initializedNotify] at hj
      · simp at hj
    · rcases j with _ | _ | j
      · simp [List.countP_cons, isInitializeCall, okInitialize, initializeCall,
          initializedNotify]
      · simp [okInitialize, initializeCall, initializedNotify] at hj
      · simp at hj
    · rcases j with _ | _ | _ | j
      · simp [List.countP_cons, isInitializeCall, okInitialize, initializeCall,
          initializedNotify, methodCall]
      · simp [okInitialize, initializeCall, initializedNotify] at hj
      · simp [okInitialize, initializeCall, methodCall] at hj
      · simp at hj

/-- C2, as amended. The retrying of `initialize` has no budget; it is ended by the peer
alone. If the first `n` answers are errors, `Run` has issued `n` `initialize` Calls
after `n + 1` steps and stands at the loop head to issue another, whatever `n` is. If
the next answer is then without error, the loop is left for good and exactly `n + 1`
`initialize` Calls are issued in the whole execution. -/
theorem retry_until_first_success (env : Env) (peer : Peer) (g : Globals)
    (hcmd : g.languageServerCMD ≠ []) (hin : env.stdinPipeErr = none)
    (hout : env.stdoutPipeErr = none) (n : Nat) (hfail : ∀ i, i < n → peer i ≠ none) :
    ((Run env peer g (n + 1)).pc = PC.initLoop ∧
      countInitialize (Run env peer g (n + 1)).trace = n) ∧
    (peer n = none → ∀ more,
      (Run env peer g (n + 2 + more)).pc ≠ PC.initLoop ∧
      countInitialize (Run env peer g (n + 2 + more)).trace = n + 1) := by
  refine ⟨⟨(Run_all_failed env peer g hcmd hin hout n hfail).1,
    count_all_failed env peer g hcmd hin hout n hfail⟩, ?_⟩
  intro hok more
  obtain ⟨hpc, hn⟩ := Run_first_success env peer g hcmd hin hout n hfail hok
  exact ⟨Run_stays_past env peer g (n + 2) (Or.inl hpc) more,
    count_with_success (shape_Run env peer g (n + 2 + more)) n
      (Run_trace_keeps env peer g (n + 2) more n _ hn)⟩

/-- Witness for C2 as amended: the slow peer fails twice and then answers. -/
theorem retry_until_first_success_witness :
    ((Run sampleEnv slowPeer sampleGlobals (2 + 1)).pc = PC.initLoop ∧
      countInitialize (Run sampleEnv slowPeer sampleGlobals (2 + 1)).trace = 2) ∧
    ((Run sampleEnv slowPeer sampleGlobals (2 + 2 + 5)).pc ≠ PC.initLoop ∧
      countInitialize (Run sampleEnv slowPeer sampleGlobals (2 + 2 + 5)).trace = 2 + 1) :=
  ⟨(retry_until_first_success sampleEnv slowPeer sampleGlobals
      (by simp [sampleGlobals, initialGlobals]) rfl rfl 2
      (by intro i hi; simp [slowPeer, hi])).1,
   (retry_until_first_success sampleEnv slowPeer sampleGlobals
      (by simp [sampleGlobals, initialGlobals]) rfl rfl 2
      (by intro i hi; simp [slowPeer, hi])).2 rfl 5⟩

/-- Counterexample to C2: against the peer whose every answer is connection-closed no
budget bounds the number of `initialize` Calls, and `Run` never leaves the loop. -/
theorem retry_budget_counterexample :
    (¬ ∃ N, ∀ fuel, countInitialize (Run sampleEnv closedPeer sampleGlobals fuel).trace ≤ N) ∧
    (∀ n, (Run sampleEnv closedPeer sampleGlobals (n + 1)).pc = PC.initLoop) := by
  have hcmd : sampleGlobals.languageServerCMD ≠ [] := by simp [sampleGlobals, initialGlobals]
  have hfail : ∀ n i, i < n → closedPeer i ≠ none := by intro n i _; simp [closedPeer]
  constructor
  · rintro ⟨N, hN⟩
    have h1 := count_all_failed sampleEnv closedPeer sampleGlobals hcmd rfl rfl (N + 1)
      (hfail (N + 1))
    have h2 := hN (N + 1 + 1)
    omega
  · intro n
    exact (Run_all_failed sampleEnv closedPeer sampleGlobals hcmd rfl rfl n (hfail n)).1

/-- C3, as amended. A connection-closed failure of an `initialize` Call is treated like
any other failure: the operation issued next is again the `initialize` Call with the same
params; and against a peer whose stream is closed, so that every operation fails with
connection-closed, `Run` never leaves the loop: after `n + 1` steps it has issued `n`
failed `initialize` Calls and stands at the loop head. -/
theorem closed_stream_is_retried (env : Env) (peer : Peer) (g : Globals) :
    (∀ fuel i p,
      (Run env peer g fuel).trace[i]? =
        some ⟨initializeCall p, some RpcError.connectionClosed⟩ →
      (Run env peer g (fuel + 1)).trace[i + 1]? =
        some ⟨initializeCall p, peer (i + 1)⟩) ∧
    (g.languageServerCMD ≠ [] → env.stdinPipeErr = none → env.stdoutPipeErr = none →
      (∀ i, peer i = some RpcError.connectionClosed) →
      ∀ n, (Run env peer g (n + 1)).pc = PC.initLoop ∧
        (Run env peer g (n + 1)).trace =
          List.replicate n ⟨initializeCall (mkInitializeParams (settledLocation env g)),
            some RpcError.connectionClosed⟩) := by
  constructor
  · intro fuel i p h
    exact (retry_after_failure env peer g fuel i p _ h).2
  · intro hcmd hin hout hclosed n
    have hfail : ∀ i, i < n → peer i ≠ none := by
      intro i _
      rw [hclosed i]
      simp
    obtain ⟨hpc, -, htr⟩ := Run_all_failed env peer g hcmd hin hout n hfail
    refine ⟨hpc, ?_⟩
    rw [htr]
    apply List.ext_getElem?
    intro i
    by_cases hi : i < n
    · simp [List.getElem?_map, List.getElem?_range hi, List.getElem?_replicate, hi, hclosed i]
    · have h1 : (List.range n).length ≤ i := by simp; omega
      simp [List.getElem?_map, List.getElem?_eq_none h1, List.getElem?_replicate, hi]

/-- Witness for C3 as amended, against the closed peer. -/
theorem closed_stream_is_retried_witness :
    (Run sampleEnv closedPeer sampleGlobals (2 + 1)).trace[0 + 1]? =
        some ⟨initializeCall (mkInitializeParams "/home/dev/project"), closedPeer (0 + 1)⟩ ∧
    ((Run sampleEnv closedPeer sampleGlobals (40 + 1)).pc = PC.initLoop ∧
        (Run sampleEnv closedPeer sampleGlobals (40 + 1)).trace =
          List.replicate 40
            ⟨initializeCall (mkInitializeParams (settledLocation sampleEnv sampleGlobals)),
              some RpcError.connectionClosed⟩) :=
  ⟨(closed_stream_is_retried sampleEnv closedPeer sampleGlobals).1 2 0
      (mkInitializeParams "/home/dev/project") rfl,
   (closed_stream_is_retried sampleEnv closedPeer sampleGlobals).2
      (by simp [sampleGlobals, initialGlobals]) rfl rfl (fun _ => rfl) 40⟩

/-- Counterexample to C3: the first `initialize` Call fails with connection-closed, and
a second `initialize` Call is issued all the same, after which `Run` again stands at the
head of the loop. -/
theorem closed_stream_counterexample :
    (Run sampleEnv closedPeer sampleGlobals 3).trace =
      [⟨initializeCall (mkInitializeParams "/home/dev/project"),
          some RpcError.connectionClosed⟩,
       ⟨initializeCall (mkInitializeParams "/home/dev/project"),
          some RpcError.connectionClosed⟩] ∧
    (Run sampleEnv closedPeer sampleGlobals 3).pc = PC.initLoop :=
  ⟨rfl, rfl⟩

/-! ## C8: the root URI -/

/-- C8. Every `initialize` Call that `Run` issues carries as RootURI the text `file://`
followed by the `--data` location when that location is not empty, and `file://`
followed by the working directory when the location is empty and `os.Getwd` succeeded;
and once the pipes are open the first operation issued is such a Call. -/
theorem initialize_rootURI (env : Env) (peer : Peer) (g : Globals) :
    (∀ (fuel i : Nat) (p : InitializeParams) (r : Option RpcError),
      (Run env peer g fuel).trace[i]? = some ⟨initializeCall p, r⟩ →
      (g.codeLocation ≠ "" → p.RootURI = "file://" ++ g.codeLocation) ∧
      (g.codeLocation = "" → env.getwd.2 = none →
        p.RootURI = "file://" ++ env.getwd.1)) ∧
    (g.languageServerCMD ≠ [] → env.stdinPipeErr = none → env.stdoutPipeErr = none →
      ∃ p, (Run env peer g 2).trace[0]? = some ⟨initializeCall p, peer 0⟩) := by
  constructor
  · intro fuel i p r hi
    obtain ⟨k, tail, hpos, -, -, hT, -⟩ := (shape_Run env peer g fuel).position
    have hp : p = mkInitializeParams (settledLocation env g) := by
      rcases hpos i _ hi with ⟨-, hop, -⟩ | ⟨j, -, hj⟩
      · exact initializeCall_injective _ _ hop
      · rcases tail_cases env g _ tail hT with
          ⟨rfl, -⟩ | ⟨rfl, -⟩ | ⟨rfl, -⟩ | ⟨e, rfl, -⟩ | ⟨r2, rfl, -⟩
        · simp at hj
        · rcases j with _ | j <;> simp [okInitialize, initializeCall] at hj
          exact hj.1.symm
        · rcases j with _ | _ | j <;>
            simp [okInitialize, initializeCall, initializedNotify] at hj
          exact hj.1.symm
        · rcases j with _ | _ | j <;>
            simp [okInitialize, initializeCall, initializedNotify] at hj
          exact hj.1.symm
        · rcases j with _ | _ | _ | j <;>
            simp [okInitialize, initializeCall, initializedNotify, methodCall] at hj
          exact hj.1.symm
    subst hp
    constructor
    · intro hne
      simp [mkInitializeParams, settledLocation, hne]
    · intro he _
      simp [mkInitializeParams, settledLocation, he]
  · intro hcmd hin hout
    refine ⟨mkInitializeParams (settledLocation env g), ?_⟩
    have h1 := Run_one env peer g hcmd hin hout
    have hstep : Run env peer g 2 = step env peer g (Run env peer g 1) := rfl
    rw [hstep, step_initLoop_trace env peer g _ (by rw [h1]), h1]
    simp

/-- Witness for C8: with `--data /src/app` and with the default location. -/
theorem initialize_rootURI_witness :
    (mkInitializeParams "/src/app").RootURI = "file://" ++ "/src/app" ∧
    (mkInitializeParams "/home/dev/project").RootURI = "file://" ++ sampleEnv.getwd.1 :=
  ⟨((initialize_rootURI sampleEnv readyPeer
      { sampleGlobals with codeLocation := "/src/app" }).1 2 0
      (mkInitializeParams "/src/app") none rfl).1 (by decide),
   ((initialize_rootURI sampleEnv readyPeer sampleGlobals).1 2 0
      (mkInitializeParams "/home/dev/project") none rfl).2 rfl rfl⟩

/-! ## C7: what `Args` rejects -/

/-- C7. `Args` returns the error `must pass in method name, and json struct` for every
argument list whose length is not 2; for a list of length 2 it returns an error exactly
when decoding the second argument into the params map fails (the error of that
decoding), and nil otherwise. -/
theorem Args_error_cases (unmarshal : Unmarshal) (g : Globals) :
    (∀ args : List String, args.length ≠ 2 →
      (Args unmarshal args g).1 = some "must pass in method name, and json struct") ∧
    (∀ m j : String,
      ((Args unmarshal [m, j] g).1 ≠ none ↔ (unmarshal j g.jsonData).2 ≠ none) ∧
      (Args unmarshal [m, j] g).1 = (unmarshal j g.jsonData).2) := by
  constructor
  · intro args hlen
    simp [Args, hlen]
  · intro m j
    have heq : (Args unmarshal [m, j] g).1 = (unmarshal j g.jsonData).2 := by
      simp only [Args, List.length_cons, List.length_nil]
      rcases h : (unmarshal j g.jsonData).2 with _ | err <;> simp [h]
    exact ⟨by rw [heq], heq⟩

/-- Witness for C7: one, three and two arguments, the last with a text that decodes
and with one that does not. -/
theorem Args_error_cases_witness :
    (Args sampleUnmarshal ["workspace/symbol"] initialGlobals).1 =
        some "must pass in method name, and json struct" ∧
    (Args sampleUnmarshal ["a", "b", "c"] initialGlobals).1 =
        some "must pass in method name, and json struct" ∧
    (Args sampleUnmarshal ["workspace/symbol", "\x7b\"query\": \"*\"\x7d"]
        initialGlobals).1 = none ∧
    (Args sampleUnmarshal ["workspace/symbol", "query"] initialGlobals).1 =
        some "invalid character" :=
  ⟨(Args_error_cases sampleUnmarshal initialGlobals).1 ["workspace/symbol"] (by decide),
   (Args_error_cases sampleUnmarshal initialGlobals).1 ["a", "b", "c"] (by decide),
   ((Args_error_cases sampleUnmarshal initialGlobals).2 "workspace/symbol"
      "\x7b\"query\": \"*\"\x7d").2,
   ((Args_error_cases sampleUnmarshal initialGlobals).2 "workspace/symbol" "query").2⟩

/-! ## C6: the accepted arguments reach the peer -/

theorem Args_globals (unmarshal : Unmarshal) (g : Globals) (m j : String) :
    (Args unmarshal [m, j] g).2 =
      { g with method := m, jsonData := (unmarshal j g.jsonData).1 } := by
  simp only [Args, List.length_cons, List.length_nil]
  rcases h : (unmarshal j g.jsonData).2 with _ | err <;> simp [h]

theorem Run_returns_after_notify (env : Env) (peer : Peer) (g : Globals) (n : Nat)
    (h : (Run env peer g n).pc = PC.callMethod ∨ (Run env peer g n).pc = PC.returned)
    (m : Nat) : (Run env peer g (n + 1 + m)).pc = PC.returned := by
  induction m with
  | zero =>
    rcases h with h | h
    · rw [Nat.add_zero, Run_succ, step_callMethod env peer g _ h]
    · rw [Nat.add_zero, Run_succ, step_returned env peer g _ h]; exact h
  | succ m ih =>
    rw [Run_add, step_returned env peer g _ ih]; exact ih

/-- Once the `initialized` Notify has returned without error, the user call is the one
operation that follows it. -/
theorem method_call_follows (env : Env) (peer : Peer) (g : Globals) (fuel k : Nat)
    (h : (Run env peer g fuel).trace[k]? = some ⟨initializedNotify, none⟩) (more : Nat) :
    (Run env peer g (fuel + 1 + more)).trace.drop (k + 1) =
      [⟨methodCall g, peer (k + 1)⟩] := by
  -- the run stands at or behind line 126
  have hpc : (Run env peer g fuel).pc = PC.callMethod ∨
      (Run env peer g fuel).pc = PC.returned := by
    obtain ⟨k0, tail0, hpos0, -, -, hT0, -⟩ := (shape_Run env peer g fuel).position
    rcases hpos0 k _ h with ⟨-, hop, -⟩ | ⟨j, -, hj⟩
    · simp [initializedNotify, initializeCall] at hop
    · rcases tail_cases env g _ tail0 hT0 with
        ⟨rfl, -⟩ | ⟨rfl, -⟩ | ⟨-, hp⟩ | ⟨_, -, hp⟩ | ⟨_, -, hp⟩
      · simp at hj
      · rcases j with _ | j <;> simp [okInitialize, initializeCall, initializedNotify] at hj
      · exact Or.inl hp
      · exact Or.inr hp
      · exact Or.inr hp
  have hret := Run_returns_after_notify env peer g fuel hpc more
  have hk : (Run env peer g (fuel + 1 + more)).trace[k]? =
      some ⟨initializedNotify, none⟩ := by
    have := Run_trace_keeps env peer g fuel (1 + more) k _ h
    rwa [← Nat.add_assoc] at this
  have hans := answered_Run env peer g (fuel + 1 + more)
  obtain ⟨fails, tail, ht, hf, hT, -⟩ := (shape_Run env peer g (fuel + 1 + more)).fails_tail
  rw [ht] at hk
  rcases getElem?_append_cases _ _ _ _ hk with ⟨hmem, -⟩ | ⟨j, rfl, hj⟩
  · have := (hf _ hmem).1
    simp [initializedNotify, initializeCall] at this
  · rcases tail_cases env g _ tail hT with
      ⟨rfl, -⟩ | ⟨-, hp⟩ | ⟨-, hp⟩ | ⟨e, rfl, -⟩ | ⟨r, rfl, -⟩
    · simp at hj
    · rw [hret] at hp; simp at hp
    · rw [hret] at hp; simp at hp
    · rcases j with _ | _ | j <;>
        simp [okInitialize, initializeCall, initializedNotify] at hj
    · rcases j with _ | _ | _ | j <;>
        simp [okInitialize, initializeCall, initializedNotify, methodCall] at hj
      have hr : r = peer (fails.length + 1 + 1) := by
        have h2 : (Run env peer g (fuel + 1 + more)).trace[fails.length + 2]? =
            some ⟨methodCall g, r⟩ := by
          rw [ht, getElem?_append_add]; simp
        exact hans _ _ h2
      rw [ht, Nat.add_assoc, List.drop_append, hr]
      simp

/-- C6. Starting from the initial process state (method empty, jsonData nil), for every
two-element argument list `[m, j]` that `Args` accepts, in an execution of `Run` whose
`initialized` Notify has returned without error exactly one operation follows that
Notify: the Call whose method is `m` and whose params are what `j` decoded to. -/
theorem accepted_args_reach_peer (unmarshal : Unmarshal) (g0 : Globals)
    (_hm : g0.method = "") (hj : g0.jsonData = none) (m j : String)
    (_hacc : (Args unmarshal [m, j] g0).1 = none)
    (env : Env) (peer : Peer) (fuel k : Nat)
    (hhs : (Run env peer (Args unmarshal [m, j] g0).2 fuel).trace[k]? =
      some ⟨initializedNotify, none⟩) (more : Nat) :
    (Run env peer (Args unmarshal [m, j] g0).2 (fuel + 1 + more)).trace.drop (k + 1) =
      [⟨Op.call m (Params.user (unmarshal j none).1), peer (k + 1)⟩] := by
  rw [method_call_follows env peer _ fuel k hhs more, Args_globals, hj]
  rfl

/-- Witness for C6: `lsp-cli workspace/symbol` with the object of the usage example,
against a peer that is ready at once. -/
theorem accepted_args_reach_peer_witness :
    (Run sampleEnv readyPeer
        (Args sampleUnmarshal ["workspace/symbol", "\x7b\"query\": \"*\"\x7d"]
          initialGlobals).2 (3 + 1 + 4)).trace.drop (1 + 1) =
      [⟨Op.call "workspace/symbol" (Params.user (some [("query", Value.string "*")])),
        none⟩] :=
  accepted_args_reach_peer sampleUnmarshal initialGlobals rfl rfl "workspace/symbol"
    "\x7b\"query\": \"*\"\x7d" rfl sampleEnv readyPeer 3 1 rfl 4

/-! ## C9: the capturing writer -/

theorem newWriter_broken (s : Sinks) (p : List Byte) (accept : Nat)
    (h : s.broken = true) :
    newWriter s p accept = ({ s with calls := s.calls ++ p }, true) := by
  simp [newWriter, bufferWrite, stdinWrite, h]

theorem newWriter_short (s : Sinks) (p : List Byte) (accept : Nat)
    (h : s.broken = false) (hn : min accept p.length < p.length) :
    newWriter s p accept =
      ({ calls := s.calls ++ p, stdin := s.stdin ++ p.take (min accept p.length),
         broken := true }, true) := by
  simp only [newWriter, bufferWrite, stdinWrite, h]
  simp [hn]

theorem newWriter_full (s : Sinks) (p : List Byte) (accept : Nat)
    (h : s.broken = false) (hn : ¬ min accept p.length < p.length) :
    newWriter s p accept =
      ({ calls := s.calls ++ p, stdin := s.stdin ++ p, broken := false }, false) := by
  have hmin : min accept p.length = p.length := by
    have := Nat.min_le_right accept p.length
    omega
  simp only [newWriter, bufferWrite, stdinWrite, h]
  simp [hn, hmin]

theorem captured_newWriter (s : Sinks) (p : List Byte) (accept : Nat) (h : Captured s) :
    Captured (newWriter s p accept).1 := by
  obtain ⟨hpre, heq⟩ := h
  rcases hb : s.broken with _ | _
  · have hsc := heq hb
    by_cases hn : min accept p.length < p.length
    · rw [newWriter_short s p accept hb hn]
      refine ⟨?_, by simp⟩
      simp only [hsc]
      exact (List.prefix_append_right_inj s.calls).mpr (List.take_prefix _ p)
    · rw [newWriter_full s p accept hb hn]
      exact ⟨by simp [hsc], fun _ => by simp [hsc]⟩
  · rw [newWriter_broken s p accept hb]
    exact ⟨hpre.trans (List.prefix_append _ _), fun hf => by simp [hb] at hf⟩

theorem captured_writeAll (ws : List (List Byte × Nat)) (s : Sinks) (h : Captured s) :
    Captured (writeAll s ws) := by
  induction ws generalizing s with
  | nil => exact h
  | cons w ws ih =>
    obtain ⟨p, accept⟩ := w
    exact ih _ (captured_newWriter s p accept h)

theorem intact_writeAll (ws : List (List Byte × Nat)) (s : Sinks)
    (hb : s.broken = false) (hok : anyFailed s ws = false) :
    (writeAll s ws).broken = false := by
  induction ws generalizing s with
  | nil => exact hb
  | cons w ws ih =>
    obtain ⟨p, accept⟩ := w
    simp only [anyFailed, Bool.or_eq_false_iff] at hok
    obtain ⟨h1, h2⟩ := hok
    by_cases hn : min accept p.length < p.length
    · rw [newWriter_short s p accept hb hn] at h1
      simp at h1
    · have hfull := newWriter_full s p accept hb hn
      exact ih _ (by rw [hfull]) h2

/-- C9. Every write of the connection goes through `newWriter`, which first appends the
whole byte sequence to `calls` and then hands it to the pipe to stdin, which takes a
leading part of it.  So after any sequence of writes the bytes the pipe has taken are
a leading part of the captured copy, and they are all of it whenever no write has
failed. -/
theorem newWriter_captures :
    (∀ (s : Sinks) (p : List Byte) (accept : Nat),
      (newWriter s p accept).1.calls = s.calls ++ p ∧
      ∃ n, n ≤ p.length ∧ (newWriter s p accept).1.stdin = s.stdin ++ p.take n) ∧
    (∀ ws : List (List Byte × Nat),
      (writeAll Sinks.empty ws).stdin <+: (writeAll Sinks.empty ws).calls ∧
      (anyFailed Sinks.empty ws = false →
        (writeAll Sinks.empty ws).stdin = (writeAll Sinks.empty ws).calls)) := by
  constructor
  · intro s p accept
    rcases hb : s.broken with _ | _
    · by_cases hn : min accept p.length < p.length
      · rw [newWriter_short s p accept hb hn]
        exact ⟨rfl, _, Nat.le_of_lt hn, rfl⟩
      · rw [newWriter_full s p accept hb hn]
        exact ⟨rfl, p.length, Nat.le_refl _, by simp⟩
    · rw [newWriter_broken s p accept hb]
      exact ⟨rfl, 0, Nat.zero_le _, by simp⟩
  · intro ws
    have h0 : Captured Sinks.empty := ⟨by simp [Sinks.empty], fun _ => rfl⟩
    have hc := captured_writeAll ws Sinks.empty h0
    exact ⟨hc.1, fun hok => hc.2 (intact_writeAll ws Sinks.empty rfl hok)⟩

/-- Witness for C9: a sequence in which the pipe breaks, and one in which it does
not. -/
theorem newWriter_captures_witness :
    ((writeAll Sinks.empty sampleWrites).stdin <+:
        (writeAll Sinks.empty sampleWrites).calls) ∧
    (writeAll Sinks.empty sampleWritesOk).stdin =
        (writeAll Sinks.empty sampleWritesOk).calls :=
  ⟨(newWriter_captures.2 sampleWrites).1,
   (newWriter_captures.2 sampleWritesOk).2 (by decide)⟩

end LspCli
